import Mathlib

/-!
Shallow embedding of the heronote audio capture core.

Scope: the sample normalizer (crates/audio-macos/src/conversion.rs), the
speaker ring-buffer bridge with its wake cell
(crates/audio-macos/src/speaker.rs), the microphone stream
(crates/audio-macos/src/mic.rs) and the capture lifecycle commands
(apps/desktop/src-tauri/src/commands.rs with audio_state.rs).

Modelling conventions:
- Machine float values (f32 / f64) are embedded as exact rationals; the
  properties under study are value-range and algebraic identities that are
  stated by the spec over real-number arithmetic.
- Rust panics are embedded as `Option.none`; fallible Rust functions
  returning Result are embedded as `Except`.
- The real-time callback, the ring buffer and the async consumer form a
  concurrent system; it is embedded as a labelled step relation over an
  explicit shared state, with one atomic step per lock-protected or
  lock-free linearizable action of the source.
-/

/-- Embeds conversion.rs i16_to_f32: the i16::MIN special case maps to -1,
otherwise divide by i16::MAX = 32767. The Rust i16 domain is the hypothesis
-32768 <= sample <= 32767 in the theorems. -/
def i16_to_f32 (sample : Int) : ℚ :=
  if sample = -32768 then -1 else (sample : ℚ) / 32767

/-- Embeds conversion.rs i32_to_f32: the i32::MIN special case maps to -1,
otherwise divide by i32::MAX = 2147483647. -/
def i32_to_f32 (sample : Int) : ℚ :=
  if sample = -2147483648 then -1 else (sample : ℚ) / 2147483647

/-- Embeds conversion.rs f64_to_f32: a narrowing cast, value-preserving in
the exact-value model. -/
def f64_to_f32 (sample : ℚ) : ℚ :=
  sample

/-- Embeds Rust slice::chunks c: non-overlapping chunks from the front, the
last chunk possibly shorter. Only meaningful for c >= 1; the c = 0 panic of
slice::chunks is handled by the caller embedding (convert_to_mono). -/
def chunkList (c : Nat) : List ℚ → List (List ℚ)
  | [] => []
  | x :: xs => (x :: xs).take c :: chunkList c (xs.drop (c - 1))
termination_by l => l.length
decreasing_by
  simp only [List.length_drop, List.length_cons]
  omega

/-- Embeds conversion.rs convert_to_mono. The channels = 1 early return
clones the input; otherwise slice::chunks(channels) is taken, which panics
(modelled as none) when channels = 0, and each frame is summed and divided
by the full channel count. -/
def convert_to_mono (data : List ℚ) (channels : Nat) : Option (List ℚ) :=
  if channels = 1 then
    some data
  else if channels = 0 then
    none
  else
    some ((chunkList channels data).map (fun frame => frame.sum / (channels : ℚ)))

/-- Embeds the ringbuf HeapRb SPSC queue used in speaker.rs: a fixed
capacity and the stored samples, oldest first. -/
structure RingBuf where
  cap : Nat
  data : List ℚ
  deriving DecidableEq, Repr

/-- Embeds ringbuf push_slice as called by process_audio_data: appends as
many samples of the slice prefix as fit in the free capacity and returns
the updated buffer together with the count actually pushed. It is a total
function of the pre-state — the producer side never blocks. -/
def push_slice (rb : RingBuf) (samples : List ℚ) : RingBuf × Nat :=
  let free := rb.cap - rb.data.length
  let pushed := min samples.length free
  ({ rb with data := rb.data ++ samples.take pushed }, pushed)

/-- Embeds ringbuf pop_slice as called by SpeakerStream::poll_next: drains
up to n samples from the front and returns the drained prefix. -/
def pop_slice (rb : RingBuf) (n : Nat) : RingBuf × List ℚ :=
  ({ rb with data := rb.data.drop n }, rb.data.take n)

/-- Embeds speaker.rs WakerState: the registered waker (wakers are
identified by a number) and the has_data flag, both guarded by one mutex. -/
structure WakerState where
  waker : Option Nat
  has_data : Bool
  deriving DecidableEq, Repr

/-- Embeds the producer-visible part of speaker.rs AudioContext: the ring
buffer producer endpoint and the shared waker cell. -/
structure AudioContext where
  producer : RingBuf
  waker_state : WakerState
  deriving DecidableEq, Repr

/-- Observable outcome of one process_audio_data call: the post-state, the
count of pushed samples, the dropped count if the overflow warning was
logged, and the waker that was woken, if any. -/
structure PushResult where
  ctx : AudioContext
  pushed : Nat
  logged_dropped : Option Nat
  woken : Option Nat
  deriving DecidableEq, Repr

/-- Embeds speaker.rs process_audio_data: push the slice, log the dropped
count when pushed < data.len(), and when at least one sample was pushed and
the has_data flag is clear, set the flag, take the registered waker and wake
it; otherwise leave the waker cell untouched. The whole function is total
and allocation-free in the source — it never blocks. -/
def process_audio_data (ctx : AudioContext) (data : List ℚ) : PushResult :=
  let p := push_slice ctx.producer data
  let logged := if p.2 < data.length then some (data.length - p.2) else none
  if p.2 > 0 then
    if ctx.waker_state.has_data = false then
      { ctx := { producer := p.1, waker_state := { waker := none, has_data := true } },
        pushed := p.2, logged_dropped := logged, woken := ctx.waker_state.waker }
    else
      { ctx := { producer := p.1, waker_state := ctx.waker_state },
        pushed := p.2, logged_dropped := logged, woken := none }
  else
    { ctx := { producer := p.1, waker_state := ctx.waker_state },
      pushed := p.2, logged_dropped := logged, woken := none }

/-- Number of wake notifications issued by a sequence of consecutive
producer callbacks with no consumer poll in between. -/
def countWakes (ctx : AudioContext) : List (List ℚ) → Nat
  | [] => 0
  | d :: ds =>
    let r := process_audio_data ctx d
    (if r.woken.isSome then 1 else 0) + countWakes r.ctx ds

/-- Speaker.rs SAMPLES_PER_CHUNK: length of the read_buffer drained by one
poll. -/
def SAMPLES_PER_CHUNK : Nat := 1024

/-- Speaker.rs ring-buffer capacity: SAMPLES_PER_CHUNK *
BUFFER_CAPACITY_MULTIPLIER = 1024 * 64. -/
def BUFFER_CAPACITY : Nat := SAMPLES_PER_CHUNK * 64

/-- Program counter of the single consumer inside poll_next. midPoll is the
point after pop_slice returned zero samples and before the waker cell mutex
has been taken: the emptiness check is performed outside the critical
section in the source. -/
inductive ConsumerPC where
  | idle : ConsumerPC
  | midPoll : ConsumerPC
  deriving DecidableEq, Repr

/-- Shared state of the speaker bridge: the ring buffer, the waker cell and
the consumer position. -/
structure SysState where
  buf : RingBuf
  ws : WakerState
  pc : ConsumerPC
  deriving DecidableEq, Repr

/-- Labelled atomic steps of the producer-consumer system, one per
linearizable action of the source. The label is the waker woken by the
step, if any.
- push: the real-time callback runs process_audio_data.
- pollReady: poll_next pops a non-empty prefix and returns Ready.
- pollPopEmpty: poll_next pops zero samples (buffer empty at that instant)
  and proceeds towards the waker cell.
- pollRegister: poll_next takes the mutex, clears has_data, stores the
  waker and returns Pending. -/
inductive SysStep : SysState → Option Nat → SysState → Prop where
  | push (s : SysState) (data : List ℚ) :
      SysStep s (process_audio_data ⟨s.buf, s.ws⟩ data).woken
        ⟨(process_audio_data ⟨s.buf, s.ws⟩ data).ctx.producer,
         (process_audio_data ⟨s.buf, s.ws⟩ data).ctx.waker_state, s.pc⟩
  | pollReady (s : SysState) :
      s.pc = ConsumerPC.idle → s.buf.data ≠ [] →
      SysStep s none ⟨(pop_slice s.buf SAMPLES_PER_CHUNK).1, s.ws, ConsumerPC.idle⟩
  | pollPopEmpty (s : SysState) :
      s.pc = ConsumerPC.idle → s.buf.data = [] →
      SysStep s none ⟨s.buf, s.ws, ConsumerPC.midPoll⟩
  | pollRegister (s : SysState) (w : Nat) :
      s.pc = ConsumerPC.midPoll →
      SysStep s none ⟨s.buf, ⟨some w, false⟩, ConsumerPC.idle⟩

/-- Reachability by any number of system steps. -/
inductive Reach : SysState → SysState → Prop where
  | refl (s : SysState) : Reach s s
  | tail {a b c : SysState} {e : Option Nat} :
      Reach a b → SysStep b e c → Reach a c

/-- State of the speaker bridge right after SpeakerInput::stream: empty
ring buffer of capacity 65536, no registered waker, has_data false,
consumer not inside poll. -/
def initState : SysState :=
  ⟨⟨BUFFER_CAPACITY, []⟩, ⟨none, false⟩, ConsumerPC.idle⟩

/-- Embeds mic.rs MicInput as far as the rate contract is concerned: the
StreamConfig sample rate fixed by from_device at open time. -/
structure MicInput where
  config_sample_rate : Nat
  deriving DecidableEq, Repr

/-- Embeds mic.rs MicStream: holds the sample_rate copied from the config
when the stream was built; MicStream::sample_rate returns this stored
field. -/
structure MicStream where
  sample_rate : Nat
  deriving DecidableEq, Repr

/-- Embeds mic.rs MicInput::stream for the rate contract: the stream stores
self.sample_rate(), the session-open configuration value. -/
def MicInput.stream (m : MicInput) : MicStream :=
  ⟨m.config_sample_rate⟩

/-- Embeds the cpal data callback installed by mic.rs build_stream: it
receives only the delivered samples, converts them to mono and sends them;
it never receives the device nominal rate and never touches the stored
stream rate. The first result is the stream state after the callback, the
second the chunk handed to the channel. -/
def mic_callback (s : MicStream) (data : List ℚ) (channels : Nat) :
    MicStream × Option (List ℚ) :=
  (s, convert_to_mono data channels)

/-- Embeds the rate-update head of the speaker.rs IO proc: load the current
rate, compare with the device nominal rate observed in this callback, store
the new value when they differ. The stored AtomicU32 is what
SpeakerStream::sample_rate loads. -/
def speaker_proc_rate (current : Nat) (device_nominal : Nat) : Nat :=
  if current ≠ device_nominal then device_nominal else current

/-- Stored speaker rate after a sequence of IO proc callbacks, each
observing one device nominal rate. -/
def speaker_run_callbacks (start : Nat) (observed : List Nat) : Nat :=
  observed.foldl speaker_proc_rate start

/-- Embeds the mic-related flags of audio_state.rs AudioState. -/
structure AudioState where
  mic_running : Bool
  mic_stop_signal : Bool
  deriving DecidableEq, Repr

/-- Embeds the synchronous part of commands.rs start_mic_capture. The
acquire argument is the outcome of device acquisition (MicInput::new)
during this start request; the spawned capture thread duplicates the same
pre-flight check, so one outcome stands for both. Already running is
rejected first; then a failed acquisition propagates the error string
verbatim with no state mutation; on success the running flag is set and the
stop signal reset before the capture thread is spawned. -/
def start_mic_capture (s : AudioState) (acquire : Except String Unit) :
    Except String Unit × AudioState :=
  if s.mic_running then
    (Except.error "Microphone capture is already running", s)
  else
    match acquire with
    | Except.error e => (Except.error e, s)
    | Except.ok _ => (Except.ok (), { mic_running := true, mic_stop_signal := false })

/-- Embeds commands.rs stop_mic_capture: not running is rejected with no
state mutation, otherwise the stop signal flag is set. -/
def stop_mic_capture (s : AudioState) : Except String Unit × AudioState :=
  if s.mic_running = false then
    (Except.error "Microphone capture is not running", s)
  else
    (Except.ok (), { s with mic_stop_signal := true })

/-- Helper: a non-empty list no longer than the chunk size forms a single
chunk. -/
theorem chunkList_of_length_le (c : Nat) (l : List ℚ) (hne : l ≠ [])
    (hle : l.length ≤ c) : chunkList c l = [l] := by
  match l with
  | [] => exact absurd rfl hne
  | x :: xs =>
    have hdrop : xs.drop (c - 1) = [] := by
      apply List.drop_eq_nil_of_le
      simp only [List.length_cons] at hle
      omega
    rw [chunkList, hdrop, List.take_of_length_le hle, chunkList]

/-- Helper: process_audio_data always stores the push_slice result in the
producer and reports its count and the overflow log, independently of the
waker branch taken. -/
theorem process_audio_data_buffer (ctx : AudioContext) (data : List ℚ) :
    (process_audio_data ctx data).ctx.producer = (push_slice ctx.producer data).1 ∧
    (process_audio_data ctx data).pushed = (push_slice ctx.producer data).2 ∧
    (process_audio_data ctx data).logged_dropped =
      (if (push_slice ctx.producer data).2 < data.length
       then some (data.length - (push_slice ctx.producer data).2) else none) := by
  simp only [process_audio_data]
  split
  · split
    · exact ⟨rfl, rfl, rfl⟩
    · exact ⟨rfl, rfl, rfl⟩
  · exact ⟨rfl, rfl, rfl⟩

/-- Helper: while has_data is set, a callback issues no wake and leaves the
waker cell exactly as it was. -/
theorem process_audio_data_has_data (ctx : AudioContext) (data : List ℚ)
    (h : ctx.waker_state.has_data = true) :
    (process_audio_data ctx data).woken = none ∧
    (process_audio_data ctx data).ctx.waker_state = ctx.waker_state := by
  simp only [process_audio_data]
  split
  · rw [if_neg (by simp [h])]
    exact ⟨rfl, rfl⟩
  · exact ⟨rfl, rfl⟩

/-- Helper: a callback that issued a wake leaves has_data set. -/
theorem process_audio_data_woken_sets_flag (ctx : AudioContext) (data : List ℚ)
    (h : (process_audio_data ctx data).woken.isSome = true) :
    (process_audio_data ctx data).ctx.waker_state.has_data = true := by
  simp only [process_audio_data] at h ⊢
  split at h
  · split at h
    · simp_all
    · simp at h
  · simp at h

/-- Helper: a callback that pushes at least one sample while has_data is
clear sets the flag, clears the waker cell and wakes the stored waker. -/
theorem process_audio_data_wake (ctx : AudioContext) (data : List ℚ)
    (hp : 0 < (push_slice ctx.producer data).2)
    (hd : ctx.waker_state.has_data = false) :
    (process_audio_data ctx data).ctx.waker_state = ⟨none, true⟩ ∧
    (process_audio_data ctx data).woken = ctx.waker_state.waker := by
  simp only [process_audio_data]
  rw [if_pos hp, if_pos hd]
  exact ⟨rfl, rfl⟩

/-- Helper: the waker cell after a callback is either the sentinel
(cleared waker, has_data set) or untouched. -/
theorem process_audio_data_ws_cases (ctx : AudioContext) (data : List ℚ) :
    (process_audio_data ctx data).ctx.waker_state = ⟨none, true⟩ ∨
    (process_audio_data ctx data).ctx.waker_state = ctx.waker_state := by
  simp only [process_audio_data]
  split
  · split
    · exact Or.inl rfl
    · exact Or.inr rfl
  · exact Or.inr rfl

/-- Helper: from a state with has_data set, any number of consecutive
callbacks issues no wake at all. -/
theorem countWakes_of_has_data (ds : List (List ℚ)) :
    ∀ ctx : AudioContext, ctx.waker_state.has_data = true → countWakes ctx ds = 0 := by
  induction ds with
  | nil => intro ctx h; rfl
  | cons d ds ih =>
    intro ctx h
    have hw := process_audio_data_has_data ctx d h
    simp only [countWakes]
    rw [hw.1]
    simp only [Option.isSome_none, Bool.false_eq_true, if_false, Nat.zero_add]
    exact ih _ (by rw [hw.2]; exact h)

/-- C2: any number of consecutive producer callbacks with no consumer poll
in between issues at most one wake notification, and none at all when
has_data is already set — only the callback that finds has_data clear takes
and wakes the registered waker. -/
theorem wake_coalescing (ctx : AudioContext) (ds : List (List ℚ)) :
    countWakes ctx ds ≤ 1 ∧
    (ctx.waker_state.has_data = true → countWakes ctx ds = 0) := by
  refine ⟨?_, countWakes_of_has_data ds ctx⟩
  induction ds generalizing ctx with
  | nil => exact Nat.zero_le 1
  | cons d ds ih =>
    simp only [countWakes]
    by_cases hw : (process_audio_data ctx d).woken.isSome = true
    · rw [if_pos hw,
        countWakes_of_has_data ds _ (process_audio_data_woken_sets_flag ctx d hw)]
    · rw [if_neg hw]
      simpa using ih (process_audio_data ctx d).ctx

/-- C2 witness: from a fresh context, two callbacks of one sample each into
a capacity-4 buffer with a registered waker wake it exactly once. -/
theorem wake_coalescing_witness :
    countWakes ⟨⟨4, []⟩, ⟨some 7, false⟩⟩ [[1], [2]] ≤ 1 ∧
    ((⟨⟨4, [0]⟩, ⟨some 7, true⟩⟩ : AudioContext).waker_state.has_data = true →
      countWakes ⟨⟨4, [0]⟩, ⟨some 7, true⟩⟩ [[1], [2]] = 0) ∧
    countWakes ⟨⟨4, []⟩, ⟨some 7, false⟩⟩ [[1], [2]] = 1 :=
  ⟨(wake_coalescing ⟨⟨4, []⟩, ⟨some 7, false⟩⟩ [[1], [2]]).1,
   (wake_coalescing ⟨⟨4, [0]⟩, ⟨some 7, true⟩⟩ [[1], [2]]).2,
   by decide⟩

/-- C1: a producer push is total (never blocks); when the requested count
fits in the free capacity every sample is accepted in order and nothing is
logged; otherwise exactly requested-minus-free samples are dropped, the
accepted prefix is stored in its original order, and the dropped count is
logged. -/
theorem push_overflow_policy (ctx : AudioContext) (data : List ℚ) :
    (process_audio_data ctx data).ctx.producer.cap = ctx.producer.cap ∧
    (data.length ≤ ctx.producer.cap - ctx.producer.data.length →
      (process_audio_data ctx data).pushed = data.length ∧
      (process_audio_data ctx data).logged_dropped = none ∧
      (process_audio_data ctx data).ctx.producer.data = ctx.producer.data ++ data) ∧
    (ctx.producer.cap - ctx.producer.data.length < data.length →
      (process_audio_data ctx data).pushed = ctx.producer.cap - ctx.producer.data.length ∧
      (process_audio_data ctx data).logged_dropped =
        some (data.length - (ctx.producer.cap - ctx.producer.data.length)) ∧
      (process_audio_data ctx data).ctx.producer.data =
        ctx.producer.data ++ data.take (ctx.producer.cap - ctx.producer.data.length)) := by
  obtain ⟨hbuf, hpushed, hlog⟩ := process_audio_data_buffer ctx data
  refine ⟨by rw [hbuf]; rfl, ?_, ?_⟩
  · intro hle
    have hmin : min data.length (ctx.producer.cap - ctx.producer.data.length) =
        data.length := min_eq_left hle
    refine ⟨by rw [hpushed]; simpa [push_slice] using hmin, ?_, ?_⟩
    · rw [hlog]
      rw [if_neg ?_]
      simp only [push_slice, hmin]
      omega
    · rw [hbuf]
      simp [push_slice, hmin]
  · intro hlt
    have hmin : min data.length (ctx.producer.cap - ctx.producer.data.length) =
        ctx.producer.cap - ctx.producer.data.length := min_eq_right (le_of_lt hlt)
    refine ⟨by rw [hpushed]; simpa [push_slice] using hmin, ?_, ?_⟩
    · rw [hlog]
      rw [if_pos ?_]
      · simp [push_slice, hmin]
      · simp only [push_slice, hmin]
        omega
    · rw [hbuf]
      simp [push_slice, hmin]

/-- C1 witness: pushing two samples into two free slots accepts both with
nothing logged; pushing three samples into two free slots accepts the
two-sample prefix in order and logs one dropped sample. -/
theorem push_overflow_policy_witness :
    (([10, 20] : List ℚ).length ≤ 4 - ([1, 2] : List ℚ).length ∧
      (process_audio_data ⟨⟨4, [1, 2]⟩, ⟨none, true⟩⟩ [10, 20]).pushed = 2 ∧
      (process_audio_data ⟨⟨4, [1, 2]⟩, ⟨none, true⟩⟩ [10, 20]).logged_dropped = none ∧
      (process_audio_data ⟨⟨4, [1, 2]⟩, ⟨none, true⟩⟩ [10, 20]).ctx.producer.data =
        [1, 2, 10, 20]) ∧
    (4 - ([1, 2] : List ℚ).length < ([10, 20, 30] : List ℚ).length ∧
      (process_audio_data ⟨⟨4, [1, 2]⟩, ⟨none, true⟩⟩ [10, 20, 30]).pushed = 2 ∧
      (process_audio_data ⟨⟨4, [1, 2]⟩, ⟨none, true⟩⟩ [10, 20, 30]).logged_dropped = some 1 ∧
      (process_audio_data ⟨⟨4, [1, 2]⟩, ⟨none, true⟩⟩ [10, 20, 30]).ctx.producer.data =
        [1, 2, 10, 20]) := by
  have h1 := (push_overflow_policy ⟨⟨4, [1, 2]⟩, ⟨none, true⟩⟩ [10, 20]).2.1 (by decide)
  have h2 := (push_overflow_policy ⟨⟨4, [1, 2]⟩, ⟨none, true⟩⟩ [10, 20, 30]).2.2 (by decide)
  exact ⟨⟨by decide, h1.1, h1.2.1, by rw [h1.2.2]; decide⟩,
         ⟨by decide, h2.1, h2.2.1, by rw [h2.2.2]; decide⟩⟩

/-- Helper: a callback against a completely full ring buffer pushes
nothing, wakes nobody and leaves the whole context unchanged. -/
theorem process_audio_data_full (ctx : AudioContext) (data : List ℚ)
    (h : ctx.producer.cap ≤ ctx.producer.data.length) :
    (process_audio_data ctx data).ctx = ctx ∧
    (process_audio_data ctx data).woken = none := by
  have hfree : ctx.producer.cap - ctx.producer.data.length = 0 :=
    Nat.sub_eq_zero_of_le h
  have hp2 : (push_slice ctx.producer data).2 = 0 := by
    simp [push_slice, hfree]
  have hp1 : (push_slice ctx.producer data).1 = ctx.producer := by
    simp [push_slice, hfree]
  simp only [process_audio_data, hp2, hp1]
  norm_num

/-- Helper: from a full ring buffer, no sequence of producer callbacks
ever issues a wake. -/
theorem countWakes_full (ds : List (List ℚ)) :
    ∀ ctx : AudioContext, ctx.producer.cap ≤ ctx.producer.data.length →
      countWakes ctx ds = 0 := by
  induction ds with
  | nil => intro ctx h; rfl
  | cons d ds ih =>
    intro ctx h
    obtain ⟨hctx, hwoken⟩ := process_audio_data_full ctx d h
    simp only [countWakes, hwoken, hctx]
    simpa using ih ctx h

/-- Helper: componentwise characterization of an AudioContext. -/
theorem audioContext_eq_mk (r : AudioContext) (b : RingBuf) (w : WakerState)
    (h1 : r.producer = b) (h2 : r.waker_state = w) : r = ⟨b, w⟩ := by
  cases r
  simp_all

/-- Helper: componentwise characterization of a PushResult. -/
theorem pushResult_eq_mk (r : PushResult) (c : AudioContext) (p : Nat)
    (l w : Option Nat) (h1 : r.ctx = c) (h2 : r.pushed = p)
    (h3 : r.logged_dropped = l) (h4 : r.woken = w) : r = ⟨c, p, l, w⟩ := by
  cases r
  simp_all

/-- Helper: the producer step of the system, stated through an explicit
equation for the callback result. -/
theorem sysStep_push_of_eq (s : SysState) (data : List ℚ) (r : PushResult)
    (h : process_audio_data ⟨s.buf, s.ws⟩ data = r) :
    SysStep s r.woken ⟨r.ctx.producer, r.ctx.waker_state, s.pc⟩ := by
  subst h
  exact SysStep.push s data

/-- C3 counterexample: an interleaving reachable in the embedded system in
which the ring buffer is full of unconsumed samples, a waker is registered,
and no future push (of any data, in any number) ever issues a wake. The
trace: the consumer pops the empty buffer and is preempted before taking
the waker-cell mutex; the callback then fills the buffer completely
(waking nobody, as no waker is registered yet); the consumer finally
registers its waker and returns Pending. Every later push finds the buffer
full, pushes zero samples and skips the wake branch. -/
theorem missed_wakeup_counterexample :
    Reach initState
      ⟨⟨BUFFER_CAPACITY, List.replicate BUFFER_CAPACITY 0⟩, ⟨some 0, false⟩,
        ConsumerPC.idle⟩ ∧
    List.replicate BUFFER_CAPACITY (0 : ℚ) ≠ [] ∧
    (∀ ds : List (List ℚ),
      countWakes ⟨⟨BUFFER_CAPACITY, List.replicate BUFFER_CAPACITY 0⟩,
        ⟨some 0, false⟩⟩ ds = 0) := by
  refine ⟨?_, ?_, ?_⟩
  · have h1 : SysStep initState none
        ⟨⟨BUFFER_CAPACITY, []⟩, ⟨none, false⟩, ConsumerPC.midPoll⟩ :=
      SysStep.pollPopEmpty initState rfl rfl
    have hps : push_slice ⟨BUFFER_CAPACITY, []⟩ (List.replicate BUFFER_CAPACITY 0) =
        (⟨BUFFER_CAPACITY, List.replicate BUFFER_CAPACITY 0⟩, BUFFER_CAPACITY) := by
      simp only [push_slice, List.length_nil, Nat.sub_zero, List.length_replicate,
        Nat.min_self, List.nil_append, List.take_replicate]
    have h2 : SysStep ⟨⟨BUFFER_CAPACITY, []⟩, ⟨none, false⟩, ConsumerPC.midPoll⟩ none
        ⟨⟨BUFFER_CAPACITY, List.replicate BUFFER_CAPACITY 0⟩, ⟨none, true⟩,
          ConsumerPC.midPoll⟩ := by
      have hp : 0 < (push_slice ⟨BUFFER_CAPACITY, []⟩ (List.replicate BUFFER_CAPACITY 0)).2 := by
        rw [hps]
        norm_num [BUFFER_CAPACITY, SAMPLES_PER_CHUNK]
      have hwk := process_audio_data_wake ⟨⟨BUFFER_CAPACITY, []⟩, ⟨none, false⟩⟩
        (List.replicate BUFFER_CAPACITY 0) hp rfl
      have hb := process_audio_data_buffer ⟨⟨BUFFER_CAPACITY, []⟩, ⟨none, false⟩⟩
        (List.replicate BUFFER_CAPACITY 0)
      have hprod : (process_audio_data ⟨⟨BUFFER_CAPACITY, []⟩, ⟨none, false⟩⟩
          (List.replicate BUFFER_CAPACITY 0)).ctx.producer =
          ⟨BUFFER_CAPACITY, List.replicate BUFFER_CAPACITY 0⟩ := by
        rw [hb.1, hps]
      have hctx : (process_audio_data ⟨⟨BUFFER_CAPACITY, []⟩, ⟨none, false⟩⟩
          (List.replicate BUFFER_CAPACITY 0)).ctx =
          ⟨⟨BUFFER_CAPACITY, List.replicate BUFFER_CAPACITY 0⟩, ⟨none, true⟩⟩ :=
        audioContext_eq_mk _ _ _ hprod hwk.1
      have hpushed : (process_audio_data ⟨⟨BUFFER_CAPACITY, []⟩, ⟨none, false⟩⟩
          (List.replicate BUFFER_CAPACITY 0)).pushed = BUFFER_CAPACITY := by
        rw [hb.2.1, hps]
      have hlog : (process_audio_data ⟨⟨BUFFER_CAPACITY, []⟩, ⟨none, false⟩⟩
          (List.replicate BUFFER_CAPACITY 0)).logged_dropped = none := by
        rw [hb.2.2, hps, List.length_replicate]
        exact if_neg (lt_irrefl BUFFER_CAPACITY)
      have hwoken : (process_audio_data ⟨⟨BUFFER_CAPACITY, []⟩, ⟨none, false⟩⟩
          (List.replicate BUFFER_CAPACITY 0)).woken = none := by
        rw [hwk.2]
      have hpadfull := pushResult_eq_mk _ _ _ _ _ hctx hpushed hlog hwoken
      exact sysStep_push_of_eq
        ⟨⟨BUFFER_CAPACITY, []⟩, ⟨none, false⟩, ConsumerPC.midPoll⟩
        (List.replicate BUFFER_CAPACITY 0) _ hpadfull
    have h3 : SysStep
        ⟨⟨BUFFER_CAPACITY, List.replicate BUFFER_CAPACITY 0⟩, ⟨none, true⟩,
          ConsumerPC.midPoll⟩ none
        ⟨⟨BUFFER_CAPACITY, List.replicate BUFFER_CAPACITY 0⟩, ⟨some 0, false⟩,
          ConsumerPC.idle⟩ :=
      SysStep.pollRegister _ 0 rfl
    exact Reach.tail (Reach.tail (Reach.tail (Reach.refl _) h1) h2) h3
  · intro hnil
    have hlen := congrArg List.length hnil
    simp only [List.length_replicate, List.length_nil] at hlen
    exact absurd hlen (by norm_num [BUFFER_CAPACITY, SAMPLES_PER_CHUNK])
  · intro ds
    exact countWakes_full ds _ (by simp only [List.length_replicate]; exact le_refl _)

/-- Helper invariant of the speaker bridge: whenever a waker is registered,
has_data is clear — registration always clears the flag under the mutex,
and the callback clears the waker in the same action that sets the flag. -/
theorem step_waker_clear {a c : SysState} {e : Option Nat} (hstep : SysStep a e c)
    (ha : a.ws.waker = none ∨ a.ws.has_data = false) :
    c.ws.waker = none ∨ c.ws.has_data = false := by
  cases hstep with
  | push data =>
    rcases process_audio_data_ws_cases ⟨a.buf, a.ws⟩ data with hcase | hcase
    · left
      simp [hcase]
    · simp only [hcase]
      exact ha
  | pollReady h1 h2 => exact ha
  | pollPopEmpty h1 h2 => exact ha
  | pollRegister w h1 => exact Or.inr rfl

/-- Helper invariant of the speaker bridge, over all reachable states. -/
theorem reach_waker_clear (s : SysState) (h : Reach initState s) :
    s.ws.waker = none ∨ s.ws.has_data = false := by
  induction h with
  | refl => exact Or.inl rfl
  | tail hr hstep ih => exact step_waker_clear hstep ih

/-- C3 (amended): in every reachable state with a registered waker, any
push that accepts at least one sample wakes exactly that waker — the
guarantee the source does provide. (The original no-missed-wakeup claim is
refuted by the counterexample: a push that accepts zero samples because the
buffer is already full wakes nobody, and the buffer can already be full at
registration time since the emptiness check runs outside the waker-cell
critical section.) -/
theorem registered_waker_wakes (s : SysState) (w : Nat) (data : List ℚ)
    (hreach : Reach initState s) (hw : s.ws.waker = some w)
    (hp : 0 < (push_slice s.buf data).2) :
    (process_audio_data ⟨s.buf, s.ws⟩ data).woken = some w := by
  have hclear : s.ws.has_data = false := by
    rcases reach_waker_clear s hreach with h | h
    · rw [h] at hw
      exact absurd hw (by simp)
    · exact h
  simp only [process_audio_data]
  rw [if_pos hp, if_pos hclear]
  exact hw

/-- C3 witness: a consumer that registered waker 0 against an empty buffer
is woken by the next push that accepts a sample. -/
theorem registered_waker_wakes_witness :
    Reach initState ⟨⟨BUFFER_CAPACITY, []⟩, ⟨some 0, false⟩, ConsumerPC.idle⟩ ∧
    (⟨⟨BUFFER_CAPACITY, []⟩, ⟨some 0, false⟩, ConsumerPC.idle⟩ : SysState).ws.waker =
      some 0 ∧
    0 < (push_slice ⟨BUFFER_CAPACITY, []⟩ [1]).2 ∧
    (process_audio_data ⟨⟨BUFFER_CAPACITY, []⟩, ⟨some 0, false⟩⟩ [1]).woken = some 0 := by
  have hreach : Reach initState
      ⟨⟨BUFFER_CAPACITY, []⟩, ⟨some 0, false⟩, ConsumerPC.idle⟩ :=
    Reach.tail (Reach.tail (Reach.refl _) (SysStep.pollPopEmpty initState rfl rfl))
      (SysStep.pollRegister _ 0 rfl)
  refine ⟨hreach, rfl, by decide, ?_⟩
  exact registered_waker_wakes _ 0 [1] hreach rfl (by decide)

/-- C6: starting an already-running source returns the distinct "already
running" error with no state change, and stopping a non-running source
returns the distinct "not running" error with no state change. -/
theorem invalid_lifecycle_transitions (s : AudioState) (acquire : Except String Unit) :
    (s.mic_running = true →
      start_mic_capture s acquire =
        (Except.error "Microphone capture is already running", s)) ∧
    (s.mic_running = false →
      stop_mic_capture s =
        (Except.error "Microphone capture is not running", s)) := by
  constructor
  · intro h
    simp [start_mic_capture, h]
  · intro h
    simp [stop_mic_capture, h]

/-- C6 witness: the two invalid transitions at concrete states. -/
theorem invalid_lifecycle_transitions_witness :
    ((⟨true, false⟩ : AudioState).mic_running = true ∧
      start_mic_capture ⟨true, false⟩ (Except.ok ()) =
        (Except.error "Microphone capture is already running", ⟨true, false⟩)) ∧
    ((⟨false, false⟩ : AudioState).mic_running = false ∧
      stop_mic_capture ⟨false, false⟩ =
        (Except.error "Microphone capture is not running", ⟨false, false⟩)) :=
  ⟨⟨rfl, (invalid_lifecycle_transitions ⟨true, false⟩ (Except.ok ())).1 rfl⟩,
   ⟨rfl, (invalid_lifecycle_transitions ⟨false, false⟩ (Except.ok ())).2 rfl⟩⟩

/-- C7: when device acquisition fails during a start request from the idle
state, the underlying error string is returned verbatim to the caller, the
state (in particular the running flag) is unchanged, and the operation
returns normally rather than escalating — and a later start with a healthy
device succeeds. -/
theorem start_failure_stays_idle (s : AudioState) (e : String)
    (h : s.mic_running = false) :
    start_mic_capture s (Except.error e) = (Except.error e, s) ∧
    (start_mic_capture s (Except.error e)).2.mic_running = false ∧
    (start_mic_capture s (Except.ok ())).1 = Except.ok () ∧
    (start_mic_capture s (Except.ok ())).2.mic_running = true := by
  refine ⟨?_, ?_, ?_, ?_⟩ <;> simp [start_mic_capture, h]

/-- C7 witness: a concrete failed acquisition from idle. -/
theorem start_failure_stays_idle_witness :
    ((⟨false, true⟩ : AudioState).mic_running = false) ∧
    (start_mic_capture ⟨false, true⟩ (Except.error "No default input device available") =
      (Except.error "No default input device available", ⟨false, true⟩) ∧
     (start_mic_capture ⟨false, true⟩
        (Except.error "No default input device available")).2.mic_running = false ∧
     (start_mic_capture ⟨false, true⟩ (Except.ok ())).1 = Except.ok () ∧
     (start_mic_capture ⟨false, true⟩ (Except.ok ())).2.mic_running = true) :=
  ⟨rfl, start_failure_stays_idle ⟨false, true⟩ "No default input device available" rfl⟩

/-- Helper: folding the rate-compare-and-store step over a callback
sequence leaves exactly the last observed nominal rate. -/
theorem speaker_foldl_last (rs : List Nat) :
    ∀ st r : Nat, rs.getLast? = some r → speaker_run_callbacks st rs = r := by
  induction rs with
  | nil =>
    intro st r h
    simp at h
  | cons a t ih =>
    intro st r h
    cases t with
    | nil =>
      have ha : a = r := by
        simpa using h
      subst ha
      show speaker_proc_rate st a = a
      unfold speaker_proc_rate
      split
      · rfl
      · rename_i h2
        exact not_ne_iff.mp h2
    | cons b t2 =>
      have h2 : (b :: t2).getLast? = some r := by
        rwa [List.getLast?_cons_cons] at h
      exact ih (speaker_proc_rate st a) r h2

/-- C8 (amended): the speaker stream reports the rate observed by the most
recent IO proc callback (so a mid-stream nominal-rate change is reflected),
while the microphone stream reports the session-open configured rate, which
its data callbacks never update. (The original claim asserted the
callback-tracking behaviour for microphone and speaker alike; the
counterexample shows the microphone side reports the open-time value.) -/
theorem current_sample_rate_contract (st : Nat) (rs : List Nat) (r : Nat)
    (h : rs.getLast? = some r) (m : MicInput) (data : List ℚ) (channels : Nat) :
    speaker_run_callbacks st rs = r ∧
    (mic_callback m.stream data channels).1.sample_rate = m.config_sample_rate :=
  ⟨speaker_foldl_last rs st r h, rfl⟩

/-- C8 witness: a speaker session opened at 48000 whose callbacks observe
48000 then 44100 reports 44100; a mic session opened at 48000 still
reports 48000 after a callback. -/
theorem current_sample_rate_contract_witness :
    ([48000, 44100] : List Nat).getLast? = some 44100 ∧
    (speaker_run_callbacks 48000 [48000, 44100] = 44100 ∧
     (mic_callback (MicInput.stream ⟨48000⟩) [0] 1).1.sample_rate = 48000) :=
  ⟨by decide,
   current_sample_rate_contract 48000 [48000, 44100] 44100 (by decide) ⟨48000⟩ [0] 1⟩

/-- C8 counterexample: the device nominal rate moved from 48000 to 44100
mid-stream, but the microphone stream keeps reporting the session-open
48000 after its next data callback — its callback has no access to the
device rate and MicStream stores the rate once at stream construction. -/
theorem mic_sample_rate_counterexample :
    (MicInput.stream ⟨48000⟩).sample_rate = 48000 ∧
    (mic_callback (MicInput.stream ⟨48000⟩) [0] 1).1.sample_rate = 48000 ∧
    ¬((mic_callback (MicInput.stream ⟨48000⟩) [0] 1).1.sample_rate = 44100) := by
  refine ⟨rfl, rfl, by decide⟩

/-- Helper: the number of chunks is the ceiling of length over chunk
size. -/
theorem chunkList_length (c : Nat) (hc : 1 ≤ c) (l : List ℚ) :
    (chunkList c l).length = (l.length + c - 1) / c := by
  suffices hgen : ∀ (n : Nat) (l : List ℚ), l.length ≤ n →
      (chunkList c l).length = (l.length + c - 1) / c from hgen l.length l le_rfl
  intro n
  induction n with
  | zero =>
    intro l hl
    have hnil : l = [] := List.length_eq_zero.mp (Nat.le_zero.mp hl)
    subst hnil
    rw [chunkList]
    simp [Nat.div_eq_of_lt (show c - 1 < c by omega)]
  | succ n ih =>
    intro l hl
    match l with
    | [] =>
      rw [chunkList]
      simp [Nat.div_eq_of_lt (show c - 1 < c by omega)]
    | x :: xs =>
      rw [chunkList]
      simp only [List.length_cons]
      rw [ih (xs.drop (c - 1)) (by simp only [List.length_drop]
                                   simp only [List.length_cons] at hl
                                   omega)]
      simp only [List.length_drop]
      by_cases hm : c - 1 ≤ xs.length
      · have h1 : xs.length - (c - 1) + c - 1 = xs.length := by omega
        have h2 : xs.length + 1 + c - 1 = xs.length + c := by omega
        rw [h1, h2, Nat.add_div_right _ (by omega : 0 < c)]
      · have h1 : xs.length - (c - 1) + c - 1 = c - 1 := by omega
        have h2 : xs.length + 1 + c - 1 = xs.length + c := by omega
        rw [h1, h2, Nat.div_eq_of_lt (by omega : c - 1 < c),
          Nat.add_div_right _ (by omega : 0 < c),
          Nat.div_eq_of_lt (by omega : xs.length < c)]

/-- Helper: the i-th chunk is the i*c shifted window of width at most c. -/
theorem chunkList_get (c : Nat) (hc : 1 ≤ c) (l : List ℚ) (i : Nat)
    (h : i < (chunkList c l).length) :
    (chunkList c l).get ⟨i, h⟩ = (l.drop (i * c)).take c := by
  suffices hgen : ∀ (n : Nat) (l : List ℚ), l.length ≤ n →
      ∀ (i : Nat) (h : i < (chunkList c l).length),
      (chunkList c l).get ⟨i, h⟩ = (l.drop (i * c)).take c from
    hgen l.length l le_rfl i h
  intro n
  induction n with
  | zero =>
    intro l hl i h
    have hnil : l = [] := List.length_eq_zero.mp (Nat.le_zero.mp hl)
    subst hnil
    rw [chunkList] at h
    exact absurd h (by simp)
  | succ n ih =>
    intro l hl i h
    match l with
    | [] =>
      rw [chunkList] at h
      exact absurd h (by simp)
    | x :: xs =>
      match i with
      | 0 =>
        simp only [chunkList, List.get_eq_getElem, List.getElem_cons_zero,
          Nat.zero_mul, List.drop_zero]
      | i + 1 =>
        have h2 : i < (chunkList c (xs.drop (c - 1))).length := by
          have h3 := h
          rw [chunkList] at h3
          simpa using h3
        have hlen : (xs.drop (c - 1)).length ≤ n := by
          simp only [List.length_drop]
          simp only [List.length_cons] at hl
          omega
        have hrec := ih (xs.drop (c - 1)) hlen i h2
        simp only [List.get_eq_getElem] at hrec ⊢
        simp only [chunkList, List.getElem_cons_succ]
        rw [hrec, List.drop_drop]
        have harith : (i + 1) * c = i * c + (c - 1) + 1 := by
          have hc1 := hc
          calc (i + 1) * c = i * c + c := by ring
          _ = i * c + (c - 1) + 1 := by omega
        rw [harith, List.drop_succ_cons, Nat.add_comm (c - 1) (i * c)]

/-- C9: for channel count c >= 2, convert_to_mono returns ceiling(L/c)
samples, the i-th being the sum of the i-th width-c window divided by the
full channel count c — the trailing window keeps divisor c even when it
holds fewer than c samples, attenuating the last frame. -/
theorem convert_to_mono_frames (data : List ℚ) (c : Nat) (hc : 2 ≤ c) :
    ∃ out, convert_to_mono data c = some out ∧
      out.length = (data.length + c - 1) / c ∧
      ∀ (i : Nat) (h : i < out.length),
        out.get ⟨i, h⟩ = ((data.drop (i * c)).take c).sum / (c : ℚ) := by
  refine ⟨(chunkList c data).map (fun frame => frame.sum / (c : ℚ)), ?_, ?_, ?_⟩
  · unfold convert_to_mono
    rw [if_neg (by omega), if_neg (by omega)]
  · rw [List.length_map, chunkList_length c (by omega) data]
  · intro i h
    have h2 : i < (chunkList c data).length := by
      simpa using h
    simp only [List.get_eq_getElem, List.getElem_map]
    rw [← List.get_eq_getElem (chunkList c data) ⟨i, h2⟩,
      chunkList_get c (by omega) data i h2]

/-- C9 witness: the frame theorem at slice [1, 2, 3] with 2 channels: two
output samples, the trailing singleton frame still divided by 2. -/
theorem convert_to_mono_frames_witness :
    (2 ≤ 2) ∧
    (∃ out, convert_to_mono [1, 2, 3] 2 = some out ∧
      out.length = (([1, 2, 3] : List ℚ).length + 2 - 1) / 2 ∧
      ∀ (i : Nat) (h : i < out.length),
        out.get ⟨i, h⟩ = ((([1, 2, 3] : List ℚ).drop (i * 2)).take 2).sum / (2 : ℚ)) :=
  ⟨by norm_num, convert_to_mono_frames [1, 2, 3] 2 (by norm_num)⟩

/-- C4 (amended): i16 and i32 normalization stay in the inclusive range
[-1, 1] over the whole machine-integer domain and map the negative
extremum exactly to -1; the f64 narrowing cast preserves any value already
in [-1, 1]. (The original claim asserted the f64 range for every input;
the counterexample shows the cast is unrestricted.) -/
theorem normalization_range (s16 s32 : Int) (x : ℚ)
    (h16l : -32768 ≤ s16) (h16u : s16 ≤ 32767)
    (h32l : -2147483648 ≤ s32) (h32u : s32 ≤ 2147483647)
    (hxl : -1 ≤ x) (hxu : x ≤ 1) :
    (-1 ≤ i16_to_f32 s16 ∧ i16_to_f32 s16 ≤ 1) ∧
    (-1 ≤ i32_to_f32 s32 ∧ i32_to_f32 s32 ≤ 1) ∧
    i16_to_f32 (-32768) = -1 ∧ i32_to_f32 (-2147483648) = -1 ∧
    (-1 ≤ f64_to_f32 x ∧ f64_to_f32 x ≤ 1) := by
  refine ⟨?_, ?_, by simp [i16_to_f32], by simp [i32_to_f32], hxl, hxu⟩
  · unfold i16_to_f32
    split
    · norm_num
    · rename_i hne
      have hl : (-32767 : ℚ) ≤ (s16 : ℚ) := by
        have : (-32767 : Int) ≤ s16 := by omega
        exact_mod_cast this
      have hu : (s16 : ℚ) ≤ 32767 := by exact_mod_cast h16u
      constructor
      · rw [le_div_iff₀ (by norm_num : (0 : ℚ) < 32767)]
        linarith
      · rw [div_le_one (by norm_num : (0 : ℚ) < 32767)]
        exact hu
  · unfold i32_to_f32
    split
    · norm_num
    · rename_i hne
      have hl : (-2147483647 : ℚ) ≤ (s32 : ℚ) := by
        have : (-2147483647 : Int) ≤ s32 := by omega
        exact_mod_cast this
      have hu : (s32 : ℚ) ≤ 2147483647 := by exact_mod_cast h32u
      constructor
      · rw [le_div_iff₀ (by norm_num : (0 : ℚ) < 2147483647)]
        linarith
      · rw [div_le_one (by norm_num : (0 : ℚ) < 2147483647)]
        exact hu

/-- C4 witness: the range theorem instantiated at i16 input -100, i32
input 7, f64 input 1/2. -/
theorem normalization_range_witness :
    ((-32768 : Int) ≤ -100 ∧ (-100 : Int) ≤ 32767 ∧
     (-2147483648 : Int) ≤ 7 ∧ (7 : Int) ≤ 2147483647 ∧
     (-1 : ℚ) ≤ 1/2 ∧ (1/2 : ℚ) ≤ 1) ∧
    ((-1 ≤ i16_to_f32 (-100) ∧ i16_to_f32 (-100) ≤ 1) ∧
     (-1 ≤ i32_to_f32 7 ∧ i32_to_f32 7 ≤ 1) ∧
     i16_to_f32 (-32768) = -1 ∧ i32_to_f32 (-2147483648) = -1 ∧
     (-1 ≤ f64_to_f32 (1/2) ∧ f64_to_f32 (1/2) ≤ 1)) :=
  ⟨by norm_num,
   normalization_range (-100) 7 (1/2) (by norm_num) (by norm_num) (by norm_num)
     (by norm_num) (by norm_num) (by norm_num)⟩

/-- C4 counterexample: f64_to_f32 is a bare narrowing cast, so the f64
input 2 maps to 2, outside [-1, 1]; the claim asserted the range for every
f64 input. -/
theorem f64_to_f32_out_of_range :
    f64_to_f32 2 = 2 ∧ ¬(f64_to_f32 2 ≤ 1) := by
  constructor
  · rfl
  · norm_num [f64_to_f32]

/-- C5: reducing one frame of N identical channels with convert_to_mono
returns exactly that value, for every N >= 1, and a single-channel input
is passed through unchanged. -/
theorem convert_to_mono_identical (N : Nat) (v : ℚ) (data : List ℚ) :
    (1 ≤ N → convert_to_mono (List.replicate N v) N = some [v]) ∧
    convert_to_mono data 1 = some data := by
  constructor
  · intro hN
    match N, hN with
    | 1, _ => simp [convert_to_mono]
    | (n + 2), _ =>
      have hne : List.replicate (n + 2) v ≠ [] := by simp
      have hchunk : chunkList (n + 2) (List.replicate (n + 2) v) = [List.replicate (n + 2) v] :=
        chunkList_of_length_le _ _ hne (by simp)
      have hsum : (List.replicate (n + 2) v).sum = ((n + 2 : Nat) : ℚ) * v := by
        rw [List.sum_replicate, nsmul_eq_mul]
      have hc0 : ((n + 2 : Nat) : ℚ) ≠ 0 := by
        exact_mod_cast Nat.succ_ne_zero (n + 1)
      simp only [convert_to_mono, if_neg (by omega : ¬(n + 2 = 1)),
        if_neg (by omega : ¬(n + 2 = 0)), hchunk, List.map_cons, List.map_nil,
        hsum]
      rw [mul_div_cancel_left₀ v hc0]
  · simp [convert_to_mono]

/-- C5 witness: three identical channels of value 1/2 reduce to 1/2, and a
mono slice passes through. -/
theorem convert_to_mono_identical_witness :
    (1 ≤ 3) ∧ convert_to_mono (List.replicate 3 (1/2)) 3 = some [1/2] ∧
    convert_to_mono [2, 3] 1 = some [2, 3] :=
  ⟨by norm_num, (convert_to_mono_identical 3 (1/2) [2, 3]).1 (by norm_num),
   (convert_to_mono_identical 3 (1/2) [2, 3]).2⟩

/-- C10: with channels = 0 the slice::chunks precondition is violated and
convert_to_mono panics (modelled none) on every non-empty input, while
every channel count >= 1 returns normally; channels >= 1 is the totality
precondition of this public interface. -/
theorem convert_to_mono_zero_channels (data : List ℚ) (hne : data ≠ []) :
    convert_to_mono data 0 = none ∧
    ∀ c : Nat, 1 ≤ c → (convert_to_mono data c).isSome = true := by
  constructor
  · simp [convert_to_mono]
  · intro c hc
    unfold convert_to_mono
    split
    · rfl
    · rw [if_neg (by omega)]
      rfl

/-- C10 witness: the zero-channel panic and the positive-channel totality
at the concrete slice [1, 2, 3]. -/
theorem convert_to_mono_zero_channels_witness :
    ([1, 2, 3] ≠ ([] : List ℚ)) ∧ convert_to_mono [1, 2, 3] 0 = none ∧
    (convert_to_mono [1, 2, 3] 2).isSome = true :=
  ⟨by decide, (convert_to_mono_zero_channels [1, 2, 3] (by decide)).1,
   (convert_to_mono_zero_channels [1, 2, 3] (by decide)).2 2 (by norm_num)⟩


